import Mathlib

/-
Verification of the Shodone credential allocator / forwarder / health
checker core against its specification.

The Go source is shallowly embedded:
- `storage.APIKey` becomes the structure `APIKey`; SQL NULL timestamps are
  `Option GoTime` (`none` = NULL, which the Go layer reads as the zero
  `time.Time`, i.e. `IsZero()`).
- `time.Time` is embedded as `GoTime` (UTC calendar instant split as
  year / month / remainder-within-month); `Before` is lexicographic
  comparison, and `time.Date(Y, M, 1, 0,0,0,0, UTC).AddDate(0,1,0)` is
  `firstOfNextMonth`.
- The SQL statements of `storage` become pure functions on a pool
  `List APIKey`; a row UPDATE keyed on the primary key `id` is
  `updateById`.  The ORDER BY ratio `quota_used * 1.0 / CASE WHEN
  quota_limit = 0 THEN 1 ELSE quota_limit END` is compared exactly by
  cross-multiplication, which agrees with the SQL expression on the
  reachable states (`quota_limit ≥ 0`).
- Ledger writes are assumed to succeed (`PersistenceFailure` is out of
  scope of the claims); the upstream round trip of `proxyRequest` is an
  explicit `UpstreamOutcome` input.
-/

/-- Embedding of Go `time.Time` restricted to what the code uses: a UTC
calendar instant, split into year, month and the remaining instant inside
the month (day/hour/minute/second... flattened into one ordinal). -/
structure GoTime where
  year : Int
  month : Int
  rest : Int
deriving DecidableEq

/-- Go `t.Before(u)`: strict chronological comparison, lexicographic on
(year, month, rest). -/
def GoTime.before (a b : GoTime) : Prop :=
  a.year < b.year ∨
    (a.year = b.year ∧
      (a.month < b.month ∨ (a.month = b.month ∧ a.rest < b.rest)))

instance (a b : GoTime) : Decidable (a.before b) := by
  unfold GoTime.before; infer_instance

/-- `time.Date(now.Year(), now.Month(), 1, 0, 0, 0, 0, time.UTC).AddDate(0, 1, 0)`:
the first moment of the calendar month following `now` (Go normalises
month 13 of year Y to January of Y+1). -/
def firstOfNextMonth (now : GoTime) : GoTime :=
  if now.month = 12 then ⟨now.year + 1, 1, 0⟩ else ⟨now.year, now.month + 1, 0⟩

/-- Embedding of `storage.APIKey` (`internal/storage`): one credential row
of the `api_keys` table.  `lastUsed`, `lastChecked`, `refreshesAt` are
nullable (`none` = NULL / Go zero time). -/
structure APIKey where
  id : Nat
  key : String
  quotaLimit : Int
  quotaUsed : Int
  isActive : Bool
  lastUsed : Option GoTime
  lastChecked : Option GoTime
  errorCount : Int
  refreshesAt : Option GoTime
deriving DecidableEq

/-- The WHERE clause of `GetAvailableAPIKey`:
`is_active = TRUE AND (quota_limit = 0 OR quota_used < quota_limit)`. -/
def eligible (k : APIKey) : Bool :=
  k.isActive && (decide (k.quotaLimit = 0) || decide (k.quotaUsed < k.quotaLimit))

/-- `CASE WHEN quota_limit = 0 THEN 1 ELSE quota_limit END`: the divisor of
the utilization ratio in the ORDER BY of `GetAvailableAPIKey`. -/
def denom (k : APIKey) : Int :=
  if k.quotaLimit = 0 then 1 else k.quotaLimit

/-- `a.quota_used / denom a < b.quota_used / denom b`, compared exactly by
cross-multiplication (equivalent to the SQL ratio comparison whenever the
denominators are positive, i.e. whenever `quota_limit ≥ 0`). -/
def ratioLT (a b : APIKey) : Prop :=
  a.quotaUsed * denom b < b.quotaUsed * denom a

/-- Equality of the two utilization ratios, by cross-multiplication. -/
def ratioEQ (a b : APIKey) : Prop :=
  a.quotaUsed * denom b = b.quotaUsed * denom a

instance (a b : APIKey) : Decidable (ratioLT a b) := by
  unfold ratioLT; infer_instance

instance (a b : APIKey) : Decidable (ratioEQ a b) := by
  unfold ratioEQ; infer_instance

/-- SQLite `last_used ASC` comparison on a nullable column: NULL sorts
strictly before every non-NULL value, non-NULL values chronologically. -/
def nullsFirstLT : Option GoTime → Option GoTime → Prop
  | none, none => False
  | none, some _ => True
  | some _, none => False
  | some a, some b => a.before b

instance : (a b : Option GoTime) → Decidable (nullsFirstLT a b)
  | none, none => .isFalse fun h => h
  | none, some _ => .isTrue trivial
  | some _, none => .isFalse fun h => h
  | some a, some b => inferInstanceAs (Decidable (a.before b))

/-- Strict version of the two-level ORDER BY of `GetAvailableAPIKey`:
ascending utilization ratio, then ascending `last_used` with NULLs first. -/
def selLT (a b : APIKey) : Prop :=
  ratioLT a b ∨ (ratioEQ a b ∧ nullsFirstLT a.lastUsed b.lastUsed)

/-- Non-strict version of the ORDER BY comparison: `a` sorts no later
than `b`. -/
def selLE (a b : APIKey) : Prop :=
  ratioLT a b ∨ (ratioEQ a b ∧ ¬ nullsFirstLT b.lastUsed a.lastUsed)

instance (a b : APIKey) : Decidable (selLT a b) := by
  unfold selLT; infer_instance

instance (a b : APIKey) : Decidable (selLE a b) := by
  unfold selLE; infer_instance

/-- `ORDER BY ... LIMIT 1` over a list of rows: returns a row that is
minimal for `selLT` (the earliest such row on full ties). -/
def pickMin : List APIKey → Option APIKey
  | [] => none
  | k :: ks =>
    match pickMin ks with
    | none => some k
    | some m => if selLT m k then some m else some k

/-- The SELECT of `storage.GetAvailableAPIKey`: filter by the eligibility
WHERE clause, then take the ORDER BY minimum. -/
def selectAPIKey (pool : List APIKey) : Option APIKey :=
  pickMin (pool.filter eligible)

/-- `key.RefreshesAt.Before(currentTime) && !key.RefreshesAt.IsZero()`:
the lazy-rollover trigger checked on the selected row. -/
def rolloverDue (now : GoTime) (k : APIKey) : Bool :=
  match k.refreshesAt with
  | some t => decide (t.before now)
  | none => false

/-- A single-row update `f` applied to a row exactly when its primary key
matches `id`. -/
def updateIf (id : Nat) (f : APIKey → APIKey) (j : APIKey) : APIKey :=
  if j.id = id then f j else j

/-- A SQL `UPDATE api_keys SET ... WHERE id = ?` over the pool. -/
def updateById (id : Nat) (f : APIKey → APIKey) (pool : List APIKey) : List APIKey :=
  pool.map (updateIf id f)

/-- `UPDATE api_keys SET quota_used = 0, refreshes_at = ? WHERE id = ?`
with the next refresh time computed from `now` (the rollover write of
`GetAvailableAPIKey`), as the per-row field update. -/
def resetQuota (now : GoTime) (j : APIKey) : APIKey :=
  { j with quotaUsed := 0, refreshesAt := some (firstOfNextMonth now) }

/-- `storage.GetAvailableAPIKey`: run the eligibility SELECT, then — only
if a row was returned and its `refreshes_at` is past — reset that row's
quota and advance its `refreshes_at`, mirroring the change in the returned
struct.  Returns the (possibly rolled-over) key and the updated pool. -/
def getAvailableAPIKey (now : GoTime) (pool : List APIKey) :
    Option (APIKey × List APIKey) :=
  match selectAPIKey pool with
  | none => none
  | some k =>
    if rolloverDue now k then
      some (resetQuota now k, updateById k.id (resetQuota now) pool)
    else
      some (k, pool)

/-- `storage.IncrementAPIKeyUsage`: `UPDATE api_keys SET quota_used =
quota_used + ?, last_used = CURRENT_TIMESTAMP WHERE id = ?`. -/
def incrementAPIKeyUsage (now : GoTime) (id : Nat) (c : Int) :
    List APIKey → List APIKey :=
  updateById id fun j => { j with quotaUsed := j.quotaUsed + c, lastUsed := some now }

/-- `storage.UpdateAPIKeyUsage`: `UPDATE api_keys SET quota_used = ?,
last_used = CURRENT_TIMESTAMP WHERE id = ?` (absolute overwrite). -/
def updateAPIKeyUsage (now : GoTime) (id : Nat) (v : Int) :
    List APIKey → List APIKey :=
  updateById id fun j => { j with quotaUsed := v, lastUsed := some now }

/-- `storage.UpdateAPIKeyStatus`: `UPDATE api_keys SET is_active = ?,
error_count = ?, last_checked = CURRENT_TIMESTAMP WHERE id = ?`. -/
def updateAPIKeyStatus (now : GoTime) (id : Nat) (active : Bool) (ec : Int) :
    List APIKey → List APIKey :=
  updateById id fun j => { j with isActive := active, errorCount := ec, lastChecked := some now }

/-- The upstream reply to the `/api-info` health probe of
`client.CheckAPIKey`: HTTP status code and the decoded `query_credits`
field. -/
structure ProbeResponse where
  statusCode : Nat
  queryCredits : Int
deriving DecidableEq

/-- `client.CheckAPIKey` after a completed round trip: status ≥ 400 means
invalid; `query_credits <= 0` also reports invalid; otherwise valid with
`query_credits` as the remaining quota. -/
def checkAPIKey (r : ProbeResponse) : Bool × Int :=
  if 400 ≤ r.statusCode then (false, 0)
  else if r.queryCredits ≤ 0 then (false, 0)
  else (true, r.queryCredits)

/-- `api.Server.refreshSingleAPIKey` acting on the fetched row `k`:
overwrite `quota_used` with `QuotaLimit - remainingQuota`
(`UpdateAPIKeyUsage`), then, only when the reported validity differs from
the stored `is_active`, write `is_active = isValid, error_count =
k.ErrorCount + 1` (`UpdateAPIKeyStatus`). -/
def refreshSingleAPIKey (now : GoTime) (r : ProbeResponse) (k : APIKey) : APIKey :=
  let isValid := (checkAPIKey r).1
  let remaining := (checkAPIKey r).2
  let k1 := { k with quotaUsed := k.quotaLimit - remaining, lastUsed := some now }
  if k.isActive = isValid then k1
  else { k1 with isActive := isValid, errorCount := k.errorCount + 1, lastChecked := some now }

/-- The `GET /keys/:id` refresh path (`refreshAPIKey`): fetch the row by
id and apply `refreshSingleAPIKey` to it. -/
def refreshAPIKeyById (now : GoTime) (r : ProbeResponse) (id : Nat) :
    List APIKey → List APIKey :=
  updateById id (refreshSingleAPIKey now r)

/-- Outcome of the upstream round trip attempted by `client.Do` inside
`proxyRequest`: a transport-level failure, or a response with the given
status code. -/
inductive UpstreamOutcome where
  | transportError
  | response (status : Nat)
deriving DecidableEq

/-- What `proxyRequest` hands back to the caller. -/
inductive ProxyResult where
  | serviceUnavailable
  | badGateway
  | relayed (status : Nat)
deriving DecidableEq

/-- `api.Server.proxyRequest`: select-and-reserve under the key mutex,
forward, then reconcile.  No available key → 503 and no mutation; transport
failure → rollback of the reservation and 502; upstream 401/403 →
deactivate the key and bump its error count, still relaying the response;
any other status → relay as-is. -/
def proxyRequest (now : GoTime) (cost : Int) (outcome : UpstreamOutcome)
    (pool : List APIKey) : ProxyResult × List APIKey :=
  match getAvailableAPIKey now pool with
  | none => (.serviceUnavailable, pool)
  | some (key, pool1) =>
    let pool2 := incrementAPIKeyUsage now key.id cost pool1
    match outcome with
    | .transportError =>
        (.badGateway, incrementAPIKeyUsage now key.id (-cost) pool2)
    | .response st =>
        if st = 401 ∨ st = 403 then
          (.relayed st, updateAPIKeyStatus now key.id false (key.errorCount + 1) pool2)
        else
          (.relayed st, pool2)

/-- One successful-path reservation: `Select` (`GetAvailableAPIKey`)
followed by the quota increment, with no rollback; a `PoolExhausted`
selection leaves the pool untouched. -/
def reserveStep (now : GoTime) (cost : Int) (pool : List APIKey) : List APIKey :=
  match getAvailableAPIKey now pool with
  | none => pool
  | some (key, pool1) => incrementAPIKeyUsage now key.id cost pool1

/-- A sequence of reservations with no rollback, one per listed instant. -/
def reserveTrace (cost : Int) : List GoTime → List APIKey → List APIKey
  | [], pool => pool
  | t :: ts, pool => reserveTrace cost ts (reserveStep t cost pool)

/-- The core operations that mutate credential state. -/
inductive Op where
  | proxy (now : GoTime) (cost : Int) (outcome : UpstreamOutcome)
  | refresh (now : GoTime) (id : Nat) (r : ProbeResponse)
  | adminSetActive (now : GoTime) (id : Nat) (active : Bool)
deriving DecidableEq

/-- Pool-level effect of each core operation.  `adminSetActive` is the
`PUT /keys/:id` handler, which writes `is_active` from the request and
`error_count` unchanged from the fetched row. -/
def applyOp : Op → List APIKey → List APIKey
  | .proxy now cost outcome, pool => (proxyRequest now cost outcome pool).2
  | .refresh now id r, pool => refreshAPIKeyById now r id pool
  | .adminSetActive now id active, pool =>
      updateById id (fun k => { k with isActive := active, lastChecked := some now }) pool

/-- Side conditions under which the core keeps `quotaUsed` non-negative:
a non-negative per-request cost, and a health probe whose reported
remaining quota does not exceed the target row's `quotaLimit`. -/
def OpOk : Op → List APIKey → Prop
  | .proxy _ cost _, _ => 0 ≤ cost
  | .refresh _ id r, pool => ∀ k ∈ pool, k.id = id → (checkAPIKey r).2 ≤ k.quotaLimit
  | .adminSetActive _ _ _, _ => True

/-- The `POST /keys/` request body of `addAPIKey` (`quota_limit` decodes
to 0 when the field is absent; `refreshes_at` is `none` when absent, i.e.
the Go zero time). -/
structure AddKeyRequest where
  key : String
  quotaLimit : Int
  refreshesAt : Option GoTime
deriving DecidableEq

/-- `api.Server.addAPIKey` + `storage.AddAPIKey`: substitute the
configured `DefaultQuotaLimit` when the requested limit is ≤ 0, default
`refreshes_at` to the first of the next month, and insert the row with
`quota_used = 0`, `is_active = TRUE`. -/
def addAPIKey (defaultQuotaLimit : Int) (now : GoTime) (req : AddKeyRequest)
    (nextId : Nat) : APIKey :=
  let ql := if req.quotaLimit ≤ 0 then defaultQuotaLimit else req.quotaLimit
  let ra := match req.refreshesAt with
    | none => firstOfNextMonth now
    | some t => t
  { id := nextId, key := req.key, quotaLimit := ql, quotaUsed := 0,
    isActive := true, lastUsed := none, lastChecked := none,
    errorCount := 0, refreshesAt := some ra }

/-- `config.DefaultQuotaLimit`, the shipped default (config.go). -/
def DefaultQuotaLimit : Int := 100

/-! ### Concrete credentials and instants used in witnesses -/

/-- An instant in May 2025. -/
def tMay : GoTime := ⟨2025, 5, 10⟩

/-- An instant in June 2025. -/
def tJun : GoTime := ⟨2025, 6, 3⟩

/-- Scenario A credential A: limit 10, used 10, active. -/
def credA : APIKey :=
  { id := 1, key := "keyA", quotaLimit := 10, quotaUsed := 10, isActive := true,
    lastUsed := none, lastChecked := none, errorCount := 0, refreshesAt := none }

/-- Scenario A credential B: limit 10, used 0, active. -/
def credB : APIKey :=
  { id := 2, key := "keyB", quotaLimit := 10, quotaUsed := 0, isActive := true,
    lastUsed := none, lastChecked := none, errorCount := 0, refreshesAt := none }

/-- Scenario B credential B: limit 10, used 10, inactive. -/
def credBInactive : APIKey :=
  { id := 2, key := "keyB", quotaLimit := 10, quotaUsed := 10, isActive := false,
    lastUsed := none, lastChecked := none, errorCount := 0, refreshesAt := none }

/-- Scenario E credential: fully exhausted (used = limit = 1), active, with
`refreshesAt` in the past relative to `tJun`. -/
def credE : APIKey :=
  { id := 1, key := "keyE", quotaLimit := 1, quotaUsed := 1, isActive := true,
    lastUsed := none, lastChecked := none, errorCount := 0, refreshesAt := some ⟨2025, 1, 0⟩ }

/-- A fresh credential with limit 3 and no usage. -/
def credC3 : APIKey :=
  { id := 1, key := "keyC", quotaLimit := 3, quotaUsed := 0, isActive := true,
    lastUsed := none, lastChecked := none, errorCount := 0, refreshesAt := none }

/-- An inactive credential with a nonzero error count. -/
def credInactive5 : APIKey :=
  { id := 3, key := "key3", quotaLimit := 100, quotaUsed := 40, isActive := false,
    lastUsed := none, lastChecked := none, errorCount := 5, refreshesAt := none }

/-- An active credential with limit 100. -/
def credActive100 : APIKey :=
  { id := 4, key := "key4", quotaLimit := 100, quotaUsed := 60, isActive := true,
    lastUsed := none, lastChecked := none, errorCount := 0, refreshesAt := none }

/-- An eligible credential (used 4 < limit 10, active) whose `refreshesAt`
is in the past relative to `tJun`. -/
def credStale : APIKey :=
  { id := 5, key := "key5", quotaLimit := 10, quotaUsed := 4, isActive := true,
    lastUsed := none, lastChecked := none, errorCount := 0, refreshesAt := some ⟨2025, 1, 0⟩ }

/-- A healthy probe reply: HTTP 200 with 50 remaining query credits. -/
def probeOK : ProbeResponse := ⟨200, 50⟩

/-- A probe reply from a reachable upstream that finds the key valid but
quota-exhausted: HTTP 200 with `query_credits = 0`. -/
def probeExhausted : ProbeResponse := ⟨200, 0⟩

/-- A probe reply reporting more remaining credits (1000) than the stored
`quotaLimit` (100) of `credActive100`. -/
def probeBig : ProbeResponse := ⟨200, 1000⟩

/-! ### Ordering lemmas for the selection comparator -/

theorem before_irrefl (a : GoTime) : ¬ a.before a := by
  unfold GoTime.before; omega

theorem before_trans {a b c : GoTime} (h1 : a.before b) (h2 : b.before c) :
    a.before c := by
  unfold GoTime.before at h1 h2 ⊢; omega

theorem before_total {a b : GoTime} (h : ¬ a.before b) : b.before a ∨ b = a := by
  obtain ⟨y1, m1, r1⟩ := a
  obtain ⟨y2, m2, r2⟩ := b
  simp only [GoTime.before, GoTime.mk.injEq] at h ⊢
  omega

theorem nfLT_irrefl : (a : Option GoTime) → ¬ nullsFirstLT a a
  | none => fun h => h
  | some t => before_irrefl t

theorem nfLT_trans : {a b c : Option GoTime} →
    nullsFirstLT a b → nullsFirstLT b c → nullsFirstLT a c
  | none, none, _, h1, _ => h1.elim
  | none, some _, none, _, h2 => h2.elim
  | none, some _, some _, _, _ => trivial
  | some _, none, _, h1, _ => h1.elim
  | some _, some _, none, _, h2 => h2.elim
  | some _, some _, some _, h1, h2 => before_trans h1 h2

theorem nfLT_asymm {a b : Option GoTime} (h : nullsFirstLT a b) :
    ¬ nullsFirstLT b a :=
  fun h2 => nfLT_irrefl a (nfLT_trans h h2)

theorem nfLT_total : {a b : Option GoTime} →
    ¬ nullsFirstLT a b → nullsFirstLT b a ∨ b = a
  | none, none, _ => Or.inr rfl
  | none, some _, h => absurd trivial h
  | some _, none, _ => Or.inl trivial
  | some a, some b, h => by
      rcases before_total h with hb | hb
      · exact Or.inl hb
      · exact Or.inr (by rw [hb])

theorem nfLE_trans {a b c : Option GoTime}
    (h1 : ¬ nullsFirstLT b a) (h2 : ¬ nullsFirstLT c b) : ¬ nullsFirstLT c a := by
  intro hca
  rcases nfLT_total h2 with hbc | hbc
  · exact h1 (nfLT_trans hbc hca)
  · rw [hbc] at h1
    exact h1 hca

theorem denom_pos {k : APIKey} (h : 0 ≤ k.quotaLimit) : 0 < denom k := by
  unfold denom
  split <;> omega

theorem selLE_refl (a : APIKey) : selLE a a :=
  Or.inr ⟨rfl, nfLT_irrefl a.lastUsed⟩

theorem selLT_selLE {a b : APIKey} (h : selLT a b) : selLE a b := by
  rcases h with h | ⟨heq, hlt⟩
  · exact Or.inl h
  · exact Or.inr ⟨heq, nfLT_asymm hlt⟩

theorem selLE_total {a b : APIKey} (h : ¬ selLT a b) : selLE b a := by
  unfold selLT at h
  push_neg at h
  obtain ⟨h1, h2⟩ := h
  unfold ratioLT at h1
  rcases lt_or_eq_of_le (not_lt.mp h1) with hlt | heq
  · exact Or.inl hlt
  · exact Or.inr ⟨heq, h2 heq.symm⟩

theorem selLE_trans {a b c : APIKey}
    (da : 0 < denom a) (db : 0 < denom b) (dc : 0 < denom c)
    (h1 : selLE a b) (h2 : selLE b c) : selLE a c := by
  rcases h1 with h1 | ⟨h1, h1l⟩ <;> rcases h2 with h2 | ⟨h2, h2l⟩
  · refine Or.inl ?_
    unfold ratioLT at h1 h2 ⊢
    have key : a.quotaUsed * denom c * denom b < c.quotaUsed * denom a * denom b := by
      nlinarith
    exact lt_of_mul_lt_mul_right key db.le
  · refine Or.inl ?_
    unfold ratioLT at h1 ⊢
    unfold ratioEQ at h2
    have key : a.quotaUsed * denom c * denom b < c.quotaUsed * denom a * denom b := by
      nlinarith
    exact lt_of_mul_lt_mul_right key db.le
  · refine Or.inl ?_
    unfold ratioLT at h2 ⊢
    unfold ratioEQ at h1
    have key : a.quotaUsed * denom c * denom b < c.quotaUsed * denom a * denom b := by
      nlinarith
    exact lt_of_mul_lt_mul_right key db.le
  · refine Or.inr ⟨?_, nfLE_trans h1l h2l⟩
    unfold ratioEQ at h1 h2 ⊢
    have key : a.quotaUsed * denom c * denom b = c.quotaUsed * denom a * denom b := by
      nlinarith
    exact mul_right_cancel₀ (ne_of_gt db) key

/-! ### Lemmas about the selection scan -/

theorem pickMin_cons_none {a : APIKey} {ls : List APIKey} (h : pickMin ls = none) :
    pickMin (a :: ls) = some a := by
  unfold pickMin
  rw [h]

theorem pickMin_cons_some {a m : APIKey} {ls : List APIKey} (h : pickMin ls = some m) :
    pickMin (a :: ls) = if selLT m a then some m else some a := by
  unfold pickMin
  rw [h]

theorem pickMin_mem : ∀ {l : List APIKey} {k : APIKey}, pickMin l = some k → k ∈ l := by
  intro l
  induction l with
  | nil => intro k h; simp [pickMin] at h
  | cons a ls ih =>
    intro k h
    cases hm : pickMin ls with
    | none =>
      rw [pickMin_cons_none hm] at h
      simp only [Option.some.injEq] at h
      rw [← h]
      exact List.mem_cons_self a ls
    | some m =>
      rw [pickMin_cons_some hm] at h
      by_cases hlt : selLT m a
      · rw [if_pos hlt] at h
        simp only [Option.some.injEq] at h
        rw [← h]
        exact List.mem_cons_of_mem a (ih hm)
      · rw [if_neg hlt] at h
        simp only [Option.some.injEq] at h
        rw [← h]
        exact List.mem_cons_self a ls

theorem pickMin_eq_none : ∀ {l : List APIKey}, pickMin l = none → l = [] := by
  intro l h
  cases l with
  | nil => rfl
  | cons a ls =>
    cases hm : pickMin ls with
    | none => rw [pickMin_cons_none hm] at h; simp at h
    | some m =>
      rw [pickMin_cons_some hm] at h
      by_cases hlt : selLT m a <;> simp [hlt] at h

theorem pickMin_min : ∀ {l : List APIKey} {k : APIKey},
    (∀ x ∈ l, 0 < denom x) → pickMin l = some k → ∀ j ∈ l, selLE k j := by
  intro l
  induction l with
  | nil => intro k _ h; simp [pickMin] at h
  | cons a ls ih =>
    intro k hpos h j hj
    have hpa : 0 < denom a := hpos a (List.mem_cons_self a ls)
    have hpls : ∀ x ∈ ls, 0 < denom x := fun x hx => hpos x (List.mem_cons_of_mem a hx)
    cases hm : pickMin ls with
    | none =>
      rw [pickMin_cons_none hm] at h
      simp only [Option.some.injEq] at h
      rw [pickMin_eq_none hm] at hj
      rw [← h]
      rcases List.mem_cons.mp hj with rfl | hj2
      · exact selLE_refl j
      · simp at hj2
    | some m =>
      rw [pickMin_cons_some hm] at h
      have hmem : m ∈ ls := pickMin_mem hm
      have hpm : 0 < denom m := hpls m hmem
      by_cases hlt : selLT m a
      · rw [if_pos hlt] at h
        simp only [Option.some.injEq] at h
        rw [← h]
        rcases List.mem_cons.mp hj with rfl | hj2
        · exact selLT_selLE hlt
        · exact ih hpls hm j hj2
      · rw [if_neg hlt] at h
        simp only [Option.some.injEq] at h
        rw [← h]
        rcases List.mem_cons.mp hj with rfl | hj2
        · exact selLE_refl j
        · have ham : selLE a m := selLE_total hlt
          have hmj : selLE m j := ih hpls hm j hj2
          exact selLE_trans hpa hpm (hpls j hj2) ham hmj

theorem selectAPIKey_mem {pool : List APIKey} {k : APIKey}
    (h : selectAPIKey pool = some k) : k ∈ pool ∧ eligible k = true := by
  have hm := pickMin_mem h
  exact List.mem_filter.mp hm

theorem selectAPIKey_min {pool : List APIKey} {k : APIKey}
    (hpos : ∀ x ∈ pool, 0 ≤ x.quotaLimit)
    (h : selectAPIKey pool = some k) :
    ∀ j ∈ pool, eligible j = true → selLE k j := by
  intro j hj he
  refine pickMin_min ?_ h j (List.mem_filter.mpr ⟨hj, he⟩)
  intro x hx
  exact denom_pos (hpos x (List.mem_filter.mp hx).1)

theorem selectAPIKey_of_no_eligible {pool : List APIKey}
    (h : ∀ k ∈ pool, eligible k = false) : selectAPIKey pool = none := by
  unfold selectAPIKey
  have hnil : pool.filter eligible = [] := by
    rw [List.filter_eq_nil_iff]
    intro a ha
    simp [h a ha]
  rw [hnil]
  rfl

/-! ### Lemmas about row updates -/

theorem mem_updateById {id : Nat} {f : APIKey → APIKey} {pool : List APIKey} {j : APIKey}
    (hj : j ∈ updateById id f pool) : ∃ j0, j0 ∈ pool ∧ j = updateIf id f j0 := by
  rcases List.mem_map.mp hj with ⟨j0, hj0, hej⟩
  exact ⟨j0, hj0, hej.symm⟩

theorem updateById_mem (id : Nat) (f : APIKey → APIKey) {pool : List APIKey} {j0 : APIKey}
    (hj0 : j0 ∈ pool) : updateIf id f j0 ∈ updateById id f pool :=
  List.mem_map_of_mem (updateIf id f) hj0

theorem updateIf_eq_of_id {id : Nat} {f : APIKey → APIKey} {j : APIKey}
    (h : j.id = id) : updateIf id f j = f j := by
  unfold updateIf
  rw [if_pos h]

theorem updateIf_eq_of_ne {id : Nat} {f : APIKey → APIKey} {j : APIKey}
    (h : ¬ j.id = id) : updateIf id f j = j := by
  unfold updateIf
  rw [if_neg h]

theorem ids_updateById (id : Nat) (f : APIKey → APIKey)
    (hf : ∀ k, (f k).id = k.id) (pool : List APIKey) :
    (updateById id f pool).map APIKey.id = pool.map APIKey.id := by
  unfold updateById
  rw [List.map_map]
  apply List.map_congr_left
  intro j _
  unfold updateIf
  simp only [Function.comp_apply]
  split
  · exact hf j
  · rfl

theorem id_unique {pool : List APIKey} (h : (pool.map APIKey.id).Nodup)
    {a b : APIKey} (ha : a ∈ pool) (hb : b ∈ pool) (hid : a.id = b.id) : a = b :=
  List.inj_on_of_nodup_map h ha hb hid

theorem getAvailable_eq_of_selAPIKey {now : GoTime} {pool : List APIKey} {k : APIKey}
    (h : selectAPIKey pool = some k) :
    getAvailableAPIKey now pool =
      if rolloverDue now k then
        some (resetQuota now k, updateById k.id (resetQuota now) pool)
      else some (k, pool) := by
  unfold getAvailableAPIKey
  rw [h]

theorem getAvailable_spec {now : GoTime} {pool pool1 : List APIKey} {key : APIKey}
    (h : getAvailableAPIKey now pool = some (key, pool1)) :
    ∃ k0, selectAPIKey pool = some k0 ∧ k0 ∈ pool ∧ eligible k0 = true ∧
      key.id = k0.id ∧
      ((rolloverDue now k0 = true ∧ key = resetQuota now k0 ∧
          pool1 = updateById k0.id (resetQuota now) pool) ∨
       (rolloverDue now k0 = false ∧ key = k0 ∧ pool1 = pool)) := by
  cases hs : selectAPIKey pool with
  | none =>
    unfold getAvailableAPIKey at h
    rw [hs] at h
    simp at h
  | some k0 =>
    rw [getAvailable_eq_of_selAPIKey hs] at h
    obtain ⟨hmem, hel⟩ := selectAPIKey_mem hs
    refine ⟨k0, rfl, hmem, hel, ?_⟩
    by_cases hr : rolloverDue now k0 = true
    · rw [if_pos hr] at h
      simp only [Option.some.injEq, Prod.mk.injEq] at h
      refine ⟨?_, Or.inl ⟨hr, h.1.symm, h.2.symm⟩⟩
      rw [← h.1]
      rfl
    · rw [if_neg hr] at h
      simp only [Option.some.injEq, Prod.mk.injEq] at h
      refine ⟨?_, Or.inr ⟨Bool.not_eq_true _ ▸ hr, h.1.symm, h.2.symm⟩⟩
      rw [← h.1]

/-! ### Equation lemmas for the forwarder and health check -/

theorem proxyRequest_eq_unavailable {now : GoTime} {pool : List APIKey}
    (cost : Int) (outcome : UpstreamOutcome)
    (h : getAvailableAPIKey now pool = none) :
    proxyRequest now cost outcome pool = (.serviceUnavailable, pool) := by
  unfold proxyRequest
  rw [h]

theorem proxyRequest_transportError {now : GoTime} {pool pool1 : List APIKey}
    {key : APIKey} (cost : Int)
    (h : getAvailableAPIKey now pool = some (key, pool1)) :
    proxyRequest now cost .transportError pool =
      (.badGateway,
       incrementAPIKeyUsage now key.id (-cost) (incrementAPIKeyUsage now key.id cost pool1)) := by
  unfold proxyRequest
  rw [h]

theorem proxyRequest_response {now : GoTime} {pool pool1 : List APIKey}
    {key : APIKey} (cost : Int) (st : Nat)
    (h : getAvailableAPIKey now pool = some (key, pool1)) :
    proxyRequest now cost (.response st) pool =
      if st = 401 ∨ st = 403 then
        (.relayed st,
         updateAPIKeyStatus now key.id false (key.errorCount + 1)
           (incrementAPIKeyUsage now key.id cost pool1))
      else
        (.relayed st, incrementAPIKeyUsage now key.id cost pool1) := by
  unfold proxyRequest
  rw [h]

theorem increment_cancel (t1 t2 : GoTime) (id : Nat) (c : Int) (pool : List APIKey) :
    (incrementAPIKeyUsage t2 id (-c) (incrementAPIKeyUsage t1 id c pool)).map
        (fun j => (j.id, j.quotaUsed)) = pool.map (fun j => (j.id, j.quotaUsed)) := by
  unfold incrementAPIKeyUsage updateById
  rw [List.map_map, List.map_map]
  apply List.map_congr_left
  intro j _
  simp only [Function.comp_apply]
  unfold updateIf
  by_cases hid : j.id = id
  · simp [hid]
  · simp [hid]

theorem refresh_quotaUsed (now : GoTime) (r : ProbeResponse) (k : APIKey) :
    (refreshSingleAPIKey now r k).quotaUsed = k.quotaLimit - (checkAPIKey r).2 := by
  unfold refreshSingleAPIKey
  by_cases h : k.isActive = (checkAPIKey r).1 <;> simp [h]

theorem refresh_isActive (now : GoTime) (r : ProbeResponse) (k : APIKey) :
    (refreshSingleAPIKey now r k).isActive = (checkAPIKey r).1 := by
  unfold refreshSingleAPIKey
  by_cases h : k.isActive = (checkAPIKey r).1 <;> simp [h]

theorem refresh_errorCount (now : GoTime) (r : ProbeResponse) (k : APIKey) :
    (refreshSingleAPIKey now r k).errorCount =
      if k.isActive = (checkAPIKey r).1 then k.errorCount else k.errorCount + 1 := by
  unfold refreshSingleAPIKey
  by_cases h : k.isActive = (checkAPIKey r).1 <;> simp [h]

theorem refresh_id (now : GoTime) (r : ProbeResponse) (k : APIKey) :
    (refreshSingleAPIKey now r k).id = k.id := by
  unfold refreshSingleAPIKey
  by_cases h : k.isActive = (checkAPIKey r).1 <;> simp [h]

/-- The `POST /keys/` request used in witnesses: `quota_limit` absent
(decoded as 0), `refreshes_at` absent. -/
def reqZero : AddKeyRequest := ⟨"newkey", 0, none⟩

/-! ### Claims -/

/-- C3: reservation and rollback are inverse operations on `quotaUsed`:
reserving `cost` during `Select` and rolling back `cost` after a transport
failure leaves every credential's `quotaUsed` exactly at its
pre-reservation value (and the caller gets the gateway error). -/
theorem c3_reserve_rollback_inverse (now : GoTime) (cost : Int)
    (pool pool1 : List APIKey) (key : APIKey)
    (h : getAvailableAPIKey now pool = some (key, pool1)) :
    (proxyRequest now cost .transportError pool).1 = .badGateway ∧
    (proxyRequest now cost .transportError pool).2.map (fun j => (j.id, j.quotaUsed))
      = pool1.map (fun j => (j.id, j.quotaUsed)) := by
  rw [proxyRequest_transportError cost h]
  exact ⟨rfl, increment_cancel now now key.id cost pool1⟩

/-- C3 witness: Scenario C. `Select(1)` reserves against B (used 0 → 1),
the forward fails with a transport error, and B ends with used = 0. -/
theorem c3_witness :
    (proxyRequest tMay 1 .transportError [credB]).1 = .badGateway ∧
    (proxyRequest tMay 1 .transportError [credB]).2.map (fun j => (j.id, j.quotaUsed))
      = [credB].map (fun j => (j.id, j.quotaUsed)) :=
  c3_reserve_rollback_inverse tMay 1 [credB] [credB] credB (by decide)

/-- C6: `Select` on a pool that is empty or has no eligible credential
fails with `PoolExhausted`, surfaced as service-unavailable, with no retry
and no mutation of any credential. -/
theorem c6_pool_exhausted (now : GoTime) (cost : Int) (outcome : UpstreamOutcome)
    (pool : List APIKey) (h : ∀ k ∈ pool, eligible k = false) :
    proxyRequest now cost outcome pool = (.serviceUnavailable, pool) := by
  have hsel : getAvailableAPIKey now pool = none := by
    unfold getAvailableAPIKey
    rw [selectAPIKey_of_no_eligible h]
  exact proxyRequest_eq_unavailable cost outcome hsel

/-- C6 witness: Scenario B. A (limit 10, used 10, active) and B (limit 10,
used 10, inactive): `Select(1)` fails with `PoolExhausted` and the pool is
unchanged. -/
theorem c6_witness :
    proxyRequest tMay 1 (.response 200) [credA, credBInactive] =
      (.serviceUnavailable, [credA, credBInactive]) :=
  c6_pool_exhausted tMay 1 (.response 200) [credA, credBInactive] (by decide)

/-- C7 counterexample: the claim says `errorCount` is incremented only when
validity flips from true to false.  On an inactive credential whose probe
reports it valid, the code flips `isActive` to true AND increments
`errorCount` (`UpdateAPIKeyStatus(key.ID, isValid, key.ErrorCount+1)` runs
on any validity change). -/
theorem c7_counterexample :
    credInactive5.isActive = false ∧ (checkAPIKey probeOK).1 = true ∧
    (refreshSingleAPIKey tMay probeOK credInactive5).isActive = true ∧
    (refreshSingleAPIKey tMay probeOK credInactive5).errorCount
      = credInactive5.errorCount + 1 := by
  decide

/-- C7 amended: for every credential whose health probe completes, Refresh
overwrites `quotaUsed` with exactly `quotaLimit − remainingQuota` (absolute
assignment), sets `isActive` to the reported validity, and increments
`errorCount` if and only if validity flips — in either direction (not only
true → false). -/
theorem c7_refresh_overwrite (now : GoTime) (r : ProbeResponse) (k : APIKey) :
    (refreshSingleAPIKey now r k).quotaUsed = k.quotaLimit - (checkAPIKey r).2 ∧
    (refreshSingleAPIKey now r k).isActive = (checkAPIKey r).1 ∧
    (refreshSingleAPIKey now r k).errorCount =
      (if k.isActive = (checkAPIKey r).1 then k.errorCount else k.errorCount + 1) :=
  ⟨refresh_quotaUsed now r k, refresh_isActive now r k, refresh_errorCount now r k⟩

/-- C10 counterexample: with the configured `DefaultQuotaLimit` equal to 0
and `quota_limit` absent from the request (decoded as 0), the stored
credential has `quotaLimit = 0` — an unlimited credential created through
`POST /keys/`, contradicting "can never be created". -/
theorem c10_counterexample :
    (addAPIKey 0 tMay reqZero 7).quotaLimit = 0 := by
  decide

/-- C10 amended: for every `POST /keys/` request whose `quota_limit` is
absent, zero or negative, the stored credential's `quotaLimit` equals the
configured `DefaultQuotaLimit`; a credential with `quotaLimit = 0` is
therefore impossible through this endpoint provided the configured
`DefaultQuotaLimit` is nonzero (the shipped default is 100). -/
theorem c10_default_quota (defQL : Int) (now : GoTime) (req : AddKeyRequest)
    (nextId : Nat) (h : req.quotaLimit ≤ 0) :
    (addAPIKey defQL now req nextId).quotaLimit = defQL ∧
    (defQL ≠ 0 → (addAPIKey defQL now req nextId).quotaLimit ≠ 0) := by
  unfold addAPIKey
  simp [if_pos h]

/-- C10 witness: with the shipped default (100) and an absent
`quota_limit`, the stored credential's limit is 100 and in particular not
the unlimited marker 0. -/
theorem c10_witness :
    (addAPIKey DefaultQuotaLimit tMay reqZero 7).quotaLimit = DefaultQuotaLimit ∧
    (DefaultQuotaLimit ≠ 0 →
      (addAPIKey DefaultQuotaLimit tMay reqZero 7).quotaLimit ≠ 0) :=
  c10_default_quota DefaultQuotaLimit tMay reqZero 7 (by decide)

/-- C1 counterexample: with per-request cost 2 and a credential of limit 3
starting at used 0, two successful reservations (both `Select` calls
succeed) drive `quotaUsed` to 4 > 3 = `quotaLimit`: the invariant
`quotaUsed ≤ quotaLimit` fails even without rollback or concurrency. -/
theorem c1_counterexample :
    (getAvailableAPIKey tMay [credC3]).isSome = true ∧
    (getAvailableAPIKey tJun (reserveStep tMay 2 [credC3])).isSome = true ∧
    (reserveTrace 2 [tMay, tJun] [credC3]).map (fun k => (k.quotaLimit, k.quotaUsed))
      = [(3, 4)] := by
  decide

/-- C2 counterexample: Scenario E fails on the code.  A pool containing
only a fully exhausted credential (used = limit = 1, active) whose
`refreshesAt` is in the past yields `PoolExhausted` (`none`), not a revived
credential: the rollover runs only on a row the eligibility scan already
returned. -/
theorem c2_counterexample :
    credE.quotaUsed = credE.quotaLimit ∧ 0 < credE.quotaLimit ∧
    credE.isActive = true ∧ rolloverDue tJun credE = true ∧
    getAvailableAPIKey tJun [credE] = none := by
  decide

/-- C8 counterexample: a health probe that reaches the upstream (HTTP 200)
and finds the key valid but quota-exhausted (`query_credits = 0`) is
reported as invalid by `CheckAPIKey`, so the refresh deactivates the
credential — the claim says it should stay Active(quota-exhausted). -/
theorem c8_counterexample :
    credActive100.isActive = true ∧ probeExhausted.statusCode < 400 ∧
    probeExhausted.queryCredits = 0 ∧
    (refreshSingleAPIKey tMay probeExhausted credActive100).isActive = false := by
  decide

/-- C9 counterexample: the health-check overwrite sets `quotaUsed` to
`quotaLimit − remainingQuota`; when the upstream reports more remaining
credits (1000) than the stored limit (100), `quotaUsed` becomes −900 < 0. -/
theorem c9_counterexample :
    0 ≤ credActive100.quotaUsed ∧
    (refreshSingleAPIKey tMay probeBig credActive100).quotaUsed = -900 := by
  decide

/-! ### More helper lemmas: eligibility, reservation steps -/

theorem eligible_iff {k : APIKey} :
    eligible k = true ↔
      (k.isActive = true ∧ (k.quotaLimit = 0 ∨ k.quotaUsed < k.quotaLimit)) := by
  unfold eligible
  simp [Bool.and_eq_true, Bool.or_eq_true, decide_eq_true_eq]

theorem selectAPIKey_isSome {pool : List APIKey} {j : APIKey}
    (hj : j ∈ pool) (he : eligible j = true) :
    ∃ k, selectAPIKey pool = some k := by
  cases hs : selectAPIKey pool with
  | none =>
    have hnil := pickMin_eq_none hs
    have : j ∈ pool.filter eligible := List.mem_filter.mpr ⟨hj, he⟩
    rw [hnil] at this
    simp at this
  | some k => exact ⟨k, rfl⟩

theorem reserveStep_eq_none {now : GoTime} {pool : List APIKey} (cost : Int)
    (h : getAvailableAPIKey now pool = none) :
    reserveStep now cost pool = pool := by
  unfold reserveStep
  rw [h]

theorem reserveStep_eq_some {now : GoTime} {pool pool1 : List APIKey} {key : APIKey}
    (cost : Int) (h : getAvailableAPIKey now pool = some (key, pool1)) :
    reserveStep now cost pool = incrementAPIKeyUsage now key.id cost pool1 := by
  unfold reserveStep
  rw [h]

theorem reserveStep_ids (now : GoTime) (cost : Int) (pool : List APIKey) :
    (reserveStep now cost pool).map APIKey.id = pool.map APIKey.id := by
  cases hga : getAvailableAPIKey now pool with
  | none => rw [reserveStep_eq_none cost hga]
  | some kp =>
    obtain ⟨key, pool1⟩ := kp
    rw [reserveStep_eq_some cost hga]
    obtain ⟨k0, _, _, _, _, hcase⟩ := getAvailable_spec hga
    have h1 : pool1.map APIKey.id = pool.map APIKey.id := by
      rcases hcase with ⟨_, _, hp⟩ | ⟨_, _, hp⟩
      · rw [hp]
        exact ids_updateById k0.id (resetQuota now) (fun k => rfl) pool
      · rw [hp]
    unfold incrementAPIKeyUsage
    rw [ids_updateById key.id
          (fun j => { j with quotaUsed := j.quotaUsed + cost, lastUsed := some now })
          (fun k => rfl) pool1, h1]

theorem reserveStep_invariant (now : GoTime) (cost : Int)
    (h0 : 0 ≤ cost) (h1 : cost ≤ 1) (pool : List APIKey)
    (hids : (pool.map APIKey.id).Nodup)
    (hinv : ∀ k ∈ pool, 0 < k.quotaLimit → k.quotaUsed ≤ k.quotaLimit) :
    ∀ j ∈ reserveStep now cost pool, 0 < j.quotaLimit → j.quotaUsed ≤ j.quotaLimit := by
  cases hga : getAvailableAPIKey now pool with
  | none =>
    rw [reserveStep_eq_none cost hga]
    exact hinv
  | some kp =>
    obtain ⟨key, pool1⟩ := kp
    rw [reserveStep_eq_some cost hga]
    obtain ⟨k0, hs, hmem, hel, hid, hcase⟩ := getAvailable_spec hga
    intro j hj
    obtain ⟨j1, hj1, hje⟩ := mem_updateById hj
    rcases hcase with ⟨hr, hkey, hp⟩ | ⟨hr, hkey, hp⟩
    · -- the selected row was rolled over before the increment
      rw [hp] at hj1
      obtain ⟨j0, hj0, hj1e⟩ := mem_updateById hj1
      by_cases hidj : j0.id = k0.id
      · have hj0k : j0 = k0 := id_unique hids hj0 hmem hidj
        have hcond : (resetQuota now j0).id = key.id := by
          unfold resetQuota
          simp only
          rw [hidj, hid]
        rw [hje, hj1e, updateIf_eq_of_id hidj, updateIf_eq_of_id hcond]
        unfold resetQuota
        intro hql
        dsimp only at hql ⊢
        omega
      · have hj1j0 : j1 = j0 := by
          rw [hj1e, updateIf_eq_of_ne hidj]
        have hjne : ¬ j1.id = key.id := by
          rw [hj1j0, hid]
          exact hidj
        rw [hje, updateIf_eq_of_ne hjne, hj1j0]
        exact hinv j0 hj0
    · -- no rollover: pool1 = pool and key is the scanned row
      rw [hp] at hj1
      by_cases hidj : j1.id = key.id
      · have hj1k : j1 = k0 := by
          refine id_unique hids hj1 hmem ?_
          rw [hidj, hid]
        rw [hje, updateIf_eq_of_id hidj, hj1k]
        intro hql
        dsimp only at hql ⊢
        have helig := (eligible_iff.mp hel).2
        rcases helig with hz | hlt
        · omega
        · omega
      · rw [hje, updateIf_eq_of_ne hidj]
        exact hinv j1 hj1

/-- C1 amended: with a per-request cost of at most 1 (the shipped default
`CostPerRequest` is 0), every credential with `quotaLimit > 0` keeps
`quotaUsed ≤ quotaLimit` after any sequence of successful reservations
(`Select` + quota increment) with no rollback; with an arbitrary cost the
bound can be exceeded by up to cost − 1 (see the counterexample). -/
theorem c1_quota_invariant (cost : Int) (h0 : 0 ≤ cost) (h1 : cost ≤ 1)
    (ts : List GoTime) (pool : List APIKey)
    (hids : (pool.map APIKey.id).Nodup)
    (hinv : ∀ k ∈ pool, 0 < k.quotaLimit → k.quotaUsed ≤ k.quotaLimit) :
    ∀ j ∈ reserveTrace cost ts pool, 0 < j.quotaLimit → j.quotaUsed ≤ j.quotaLimit := by
  induction ts generalizing pool with
  | nil =>
    unfold reserveTrace
    exact hinv
  | cons t ts ih =>
    unfold reserveTrace
    refine ih (reserveStep t cost pool) ?_ ?_
    · rw [reserveStep_ids]
      exact hids
    · exact reserveStep_invariant t cost h0 h1 pool hids hinv

/-- C1 witness: cost 1 on a two-credential pool (A exhausted, B fresh)
over two reservation instants keeps every limited credential within its
quota. -/
theorem c1_witness :
    (0:Int) ≤ 1 ∧ (1:Int) ≤ 1 ∧
    (∀ j ∈ reserveTrace 1 [tMay, tJun] [credA, credB],
      0 < j.quotaLimit → j.quotaUsed ≤ j.quotaLimit) :=
  ⟨by decide, by decide,
   c1_quota_invariant 1 (by decide) (by decide) [tMay, tJun] [credA, credB]
     (by decide) (by decide)⟩

/-- C4: whenever the pool contains an eligible credential, `Select`
returns a credential that is eligible
(`isActive && (quotaLimit == 0 || quotaUsed < quotaLimit)`) and minimal
among all eligible credentials under the ordering: ascending utilization
ratio `quotaUsed / max(quotaLimit, 1)` (unlimited credentials rank by raw
`quotaUsed`), then ascending `lastUsedAt` with NULL first. -/
theorem c4_select_minimal (pool : List APIKey)
    (hpos : ∀ x ∈ pool, 0 ≤ x.quotaLimit)
    (hex : ∃ j ∈ pool, eligible j = true) :
    ∃ k, selectAPIKey pool = some k ∧ k ∈ pool ∧ eligible k = true ∧
      ∀ j ∈ pool, eligible j = true → selLE k j := by
  obtain ⟨j, hj, he⟩ := hex
  obtain ⟨k, hk⟩ := selectAPIKey_isSome hj he
  obtain ⟨hmem, hel⟩ := selectAPIKey_mem hk
  exact ⟨k, hk, hmem, hel, selectAPIKey_min hpos hk⟩

/-- C4 witness: Scenario A. With A (limit 10, used 10, active) and B
(limit 10, used 0, active), `Select(1)` returns B, and B is minimal among
the eligible credentials. -/
theorem c4_witness :
    selectAPIKey [credA, credB] = some credB ∧
    (∃ k, selectAPIKey [credA, credB] = some k ∧ k ∈ [credA, credB] ∧
      eligible k = true ∧
      ∀ j ∈ [credA, credB], eligible j = true → selLE k j) :=
  ⟨by decide,
   c4_select_minimal [credA, credB] (by decide) ⟨credB, by decide, by decide⟩⟩

/-- C2 amended: the rollover is performed only on the credential already
returned by the eligibility scan, after eligibility was evaluated on its
pre-rollover `quotaUsed`: when `Select` succeeds, the winner was eligible
as stored, and if its `refreshesAt` was past it is returned revived
(`quotaUsed` = 0, `refreshesAt` = first moment of the next calendar month,
UTC).  A pool containing only a fully exhausted credential with past
`refreshesAt` therefore yields `PoolExhausted`, not a revival (see the
counterexample). -/
theorem c2_rollover_after_selection (now : GoTime) (pool pool1 : List APIKey)
    (key : APIKey) (h : getAvailableAPIKey now pool = some (key, pool1)) :
    ∃ k0, k0 ∈ pool ∧ eligible k0 = true ∧ selectAPIKey pool = some k0 ∧
      (rolloverDue now k0 = true →
        key.quotaUsed = 0 ∧ key.refreshesAt = some (firstOfNextMonth now)) ∧
      (rolloverDue now k0 = false → key = k0) := by
  obtain ⟨k0, hs, hmem, hel, hid, hcase⟩ := getAvailable_spec h
  refine ⟨k0, hmem, hel, hs, ?_, ?_⟩
  · intro hr
    rcases hcase with ⟨_, hkey, _⟩ | ⟨hr2, _, _⟩
    · rw [hkey]
      exact ⟨rfl, rfl⟩
    · rw [hr] at hr2
      simp at hr2
  · intro hr
    rcases hcase with ⟨hr2, _, _⟩ | ⟨_, hkey, _⟩
    · rw [hr] at hr2
      simp at hr2
    · exact hkey

/-- C5: on a successful round trip whose status is 401 or 403, the used
credential ends with `isActive = false` and `errorCount` incremented by
exactly 1, the reserved quota is kept (`quotaUsed` stays at its
post-reservation value `key.quotaUsed + cost`), and the upstream status is
still relayed to the caller. -/
theorem c5_auth_reject (now : GoTime) (cost : Int) (st : Nat)
    (pool pool1 : List APIKey) (key : APIKey)
    (hids : (pool.map APIKey.id).Nodup)
    (hsel : getAvailableAPIKey now pool = some (key, pool1))
    (hst : st = 401 ∨ st = 403) :
    (proxyRequest now cost (.response st) pool).1 = .relayed st ∧
    (∃ j ∈ (proxyRequest now cost (.response st) pool).2, j.id = key.id) ∧
    (∀ j ∈ (proxyRequest now cost (.response st) pool).2, j.id = key.id →
      j.isActive = false ∧ j.errorCount = key.errorCount + 1 ∧
      j.quotaUsed = key.quotaUsed + cost) := by
  obtain ⟨k0, hs, hmem, hel, hid, hcase⟩ := getAvailable_spec hsel
  have hkey1 : key ∈ pool1 := by
    rcases hcase with ⟨hr, hkey, hp⟩ | ⟨hr, hkey, hp⟩
    · rw [hp, hkey]
      have hin := updateById_mem k0.id (resetQuota now) hmem
      rw [updateIf_eq_of_id rfl] at hin
      exact hin
    · rw [hp, hkey]
      exact hmem
  rw [proxyRequest_response cost st hsel, if_pos hst]
  dsimp only
  unfold updateAPIKeyStatus incrementAPIKeyUsage
  refine ⟨rfl, ?_, ?_⟩
  · -- the used credential is present in the final pool
    have h2 := updateById_mem key.id
      (fun j => { j with quotaUsed := j.quotaUsed + cost, lastUsed := some now }) hkey1
    rw [updateIf_eq_of_id rfl] at h2
    have h3 := updateById_mem key.id (fun j => { j with isActive := false, errorCount := key.errorCount + 1, lastChecked := some now }) h2
    have h3v : updateIf key.id (fun j => { j with isActive := false, errorCount := key.errorCount + 1, lastChecked := some now }) ({ key with quotaUsed := key.quotaUsed + cost, lastUsed := some now }) = { key with quotaUsed := key.quotaUsed + cost, isActive := false, errorCount := key.errorCount + 1, lastUsed := some now, lastChecked := some now } := updateIf_eq_of_id rfl
    rw [h3v] at h3
    exact ⟨_, h3, rfl⟩
  · intro j hj hjid
    obtain ⟨j2, hj2, hje⟩ := mem_updateById hj
    obtain ⟨j1, hj1, hj2e⟩ := mem_updateById hj2
    by_cases hidj : j1.id = key.id
    · -- the chain hits the used credential, which must be `key` itself
      have hj1key : j1 = key := by
        rcases hcase with ⟨hr, hkey, hp⟩ | ⟨hr, hkey, hp⟩
        · rw [hp] at hj1
          obtain ⟨j0, hj0, hj1e⟩ := mem_updateById hj1
          by_cases hick : j0.id = k0.id
          · have hj0k : j0 = k0 := id_unique hids hj0 hmem hick
            rw [hj1e, updateIf_eq_of_id hick, hj0k, hkey]
          · have hjj0 : j1 = j0 := by
              rw [hj1e, updateIf_eq_of_ne hick]
            rw [hjj0] at hidj
            rw [hid] at hidj
            exact absurd hidj hick
        · rw [hp] at hj1
          refine id_unique hids hj1 ?_ ?_
          · rw [hkey]
            exact hmem
          · rw [hidj, hkey]
      have hj2v : j2 = { key with quotaUsed := key.quotaUsed + cost, lastUsed := some now } := by
        rw [hj2e, hj1key, updateIf_eq_of_id rfl]
      have hj2id : j2.id = key.id := by
        rw [hj2v]
      rw [hje, updateIf_eq_of_id hj2id, hj2v]
      exact ⟨rfl, rfl, rfl⟩
    · -- rows with a different id are untouched, so they cannot match hjid
      have hj2j1 : j2 = j1 := by
        rw [hj2e, updateIf_eq_of_ne hidj]
      have hj2ne : ¬ j2.id = key.id := by
        rw [hj2j1]
        exact hidj
      rw [hje, updateIf_eq_of_ne hj2ne, hj2j1] at hjid
      exact absurd hjid hidj

/-- C5 witness: Scenario D. `Select(1)` reserves against B; the upstream
returns 403; B ends with used = 1, inactive, errorCount 1, and the caller
receives the 403. -/
theorem c5_witness :
    (proxyRequest tMay 1 (.response 403) [credA, credB]).1 = .relayed 403 ∧
    (∃ j ∈ (proxyRequest tMay 1 (.response 403) [credA, credB]).2, j.id = credB.id) ∧
    (∀ j ∈ (proxyRequest tMay 1 (.response 403) [credA, credB]).2, j.id = credB.id →
      j.isActive = false ∧ j.errorCount = credB.errorCount + 1 ∧
      j.quotaUsed = credB.quotaUsed + 1) :=
  c5_auth_reject tMay 1 403 [credA, credB] [credA, credB] credB
    (by decide) (by decide) (Or.inr rfl)

/-! ### Positional lemmas for the state-transition claims -/

theorem getElem_updateById (id : Nat) (f : APIKey → APIKey) (pool : List APIKey) (i : Nat) :
    (updateById id f pool)[i]? = (pool[i]?).map (updateIf id f) := by
  unfold updateById
  exact List.getElem?_map (updateIf id f) pool i

theorem resetf_isActive (now : GoTime) (id : Nat) (j : APIKey) :
    (updateIf id (resetQuota now) j).isActive = j.isActive := by
  unfold updateIf resetQuota
  by_cases h : j.id = id
  · rw [if_pos h]
  · rw [if_neg h]

theorem incf_isActive (now : GoTime) (c : Int) (id : Nat) (j : APIKey) :
    (updateIf id (fun k => { k with quotaUsed := k.quotaUsed + c, lastUsed := some now }) j).isActive
      = j.isActive := by
  unfold updateIf
  by_cases h : j.id = id
  · rw [if_pos h]
  · rw [if_neg h]

/-- C8 amended: a credential transitions from Active to Inactive only on
an upstream rejection (401/403) during forwarding, a health probe that
reports the key invalid — which includes a reachable upstream reporting
`query_credits ≤ 0` for a valid key (see the counterexample) — or an
explicit administrative deactivation.  In particular a reservation
(with or without rollback or rollover) never clears `isActive`. -/
theorem c8_deactivation_sources (op : Op) (pool : List APIKey) (i : Nat) (j j' : APIKey)
    (hj : pool[i]? = some j) (hj' : (applyOp op pool)[i]? = some j')
    (hact : j.isActive = true) (hinact : j'.isActive = false) :
    (∃ now cost st, op = .proxy now cost (.response st) ∧ (st = 401 ∨ st = 403)) ∨
    (∃ now id r, op = .refresh now id r ∧ (checkAPIKey r).1 = false) ∨
    (∃ now id, op = .adminSetActive now id false) := by
  cases op with
  | adminSetActive now id active =>
    refine Or.inr (Or.inr ⟨now, id, ?_⟩)
    have heq : applyOp (.adminSetActive now id active) pool =
        updateById id (fun k => { k with isActive := active, lastChecked := some now }) pool := rfl
    rw [heq, getElem_updateById, hj] at hj'
    simp only [Option.map_some', Option.some.injEq] at hj'
    by_cases hidj : j.id = id
    · rw [← hj', updateIf_eq_of_id hidj] at hinact
      dsimp only at hinact
      rw [hinact]
    · rw [← hj', updateIf_eq_of_ne hidj, hact] at hinact
      exact absurd hinact (by simp)
  | refresh now id r =>
    refine Or.inr (Or.inl ⟨now, id, r, rfl, ?_⟩)
    have heq : applyOp (.refresh now id r) pool =
        updateById id (refreshSingleAPIKey now r) pool := rfl
    rw [heq, getElem_updateById, hj] at hj'
    simp only [Option.map_some', Option.some.injEq] at hj'
    by_cases hidj : j.id = id
    · rw [← hj', updateIf_eq_of_id hidj, refresh_isActive] at hinact
      exact hinact
    · rw [← hj', updateIf_eq_of_ne hidj, hact] at hinact
      exact absurd hinact (by simp)
  | proxy now cost outcome =>
    cases hga : getAvailableAPIKey now pool with
    | none =>
      exfalso
      have heq : applyOp (.proxy now cost outcome) pool = pool := by
        show (proxyRequest now cost outcome pool).2 = pool
        rw [proxyRequest_eq_unavailable cost outcome hga]
      rw [heq, hj] at hj'
      simp only [Option.some.injEq] at hj'
      rw [← hj', hact] at hinact
      simp at hinact
    | some kp =>
      obtain ⟨key, pool1⟩ := kp
      obtain ⟨k0, hs, hmem, hel, hid, hcase⟩ := getAvailable_spec hga
      have hp1 : ∃ j1, pool1[i]? = some j1 ∧ j1.isActive = j.isActive := by
        rcases hcase with ⟨hr, hkey, hp⟩ | ⟨hr, hkey, hp⟩
        · refine ⟨updateIf k0.id (resetQuota now) j, ?_, resetf_isActive now k0.id j⟩
          rw [hp, getElem_updateById, hj]
          rfl
        · refine ⟨j, ?_, rfl⟩
          rw [hp, hj]
      obtain ⟨j1, hj1, hact1⟩ := hp1
      cases outcome with
      | transportError =>
        exfalso
        have heq : applyOp (.proxy now cost .transportError) pool =
            incrementAPIKeyUsage now key.id (-cost)
              (incrementAPIKeyUsage now key.id cost pool1) := by
          show (proxyRequest now cost .transportError pool).2 = _
          rw [proxyRequest_transportError cost hga]
        rw [heq] at hj'
        unfold incrementAPIKeyUsage at hj'
        rw [getElem_updateById, getElem_updateById, hj1] at hj'
        simp only [Option.map_some', Option.some.injEq] at hj'
        rw [← hj', incf_isActive, incf_isActive, hact1, hact] at hinact
        simp at hinact
      | response st =>
        by_cases hst : st = 401 ∨ st = 403
        · exact Or.inl ⟨now, cost, st, rfl, hst⟩
        · exfalso
          have heq : applyOp (.proxy now cost (.response st)) pool =
              incrementAPIKeyUsage now key.id cost pool1 := by
            show (proxyRequest now cost (.response st) pool).2 = _
            rw [proxyRequest_response cost st hga, if_neg hst]
          rw [heq] at hj'
          unfold incrementAPIKeyUsage at hj'
          rw [getElem_updateById, hj1] at hj'
          simp only [Option.map_some', Option.some.injEq] at hj'
          rw [← hj', incf_isActive, hact1, hact] at hinact
          simp at hinact

/-- C8 witness: an explicit administrative deactivation of an active
credential is one of the allowed Active → Inactive transitions. -/
theorem c8_witness :
    (∃ now cost st, Op.adminSetActive tMay 1 false = .proxy now cost (.response st) ∧
      (st = 401 ∨ st = 403)) ∨
    (∃ now id r, Op.adminSetActive tMay 1 false = .refresh now id r ∧
      (checkAPIKey r).1 = false) ∨
    (∃ now id, Op.adminSetActive tMay 1 false = .adminSetActive now id false) :=
  c8_deactivation_sources (.adminSetActive tMay 1 false) [credA] 0 credA
    { credA with isActive := false, lastChecked := some tMay }
    (by decide) (by decide) (by decide) (by decide)

/-- C9 amended: `quotaUsed` stays ≥ 0 for every credential across the core
operations provided the per-request cost is ≥ 0 and the health probe never
reports more remaining quota than the target credential's `quotaLimit`;
with a larger reported remaining quota the health-check overwrite drives
`quotaUsed` negative (see the counterexample). -/
theorem c9_nonneg_preserved (op : Op) (pool : List APIKey)
    (hop : OpOk op pool) (hnn : ∀ k ∈ pool, 0 ≤ k.quotaUsed) :
    ∀ k ∈ applyOp op pool, 0 ≤ k.quotaUsed := by
  cases op with
  | adminSetActive now id active =>
    intro k hk
    obtain ⟨j0, hj0, hke⟩ := mem_updateById hk
    by_cases hidj : j0.id = id
    · rw [hke, updateIf_eq_of_id hidj]
      dsimp only
      exact hnn j0 hj0
    · rw [hke, updateIf_eq_of_ne hidj]
      exact hnn j0 hj0
  | refresh now id r =>
    intro k hk
    obtain ⟨j0, hj0, hke⟩ := mem_updateById hk
    by_cases hidj : j0.id = id
    · rw [hke, updateIf_eq_of_id hidj, refresh_quotaUsed]
      have hlim := hop j0 hj0 hidj
      omega
    · rw [hke, updateIf_eq_of_ne hidj]
      exact hnn j0 hj0
  | proxy now cost outcome =>
    have hcost : 0 ≤ cost := hop
    cases hga : getAvailableAPIKey now pool with
    | none =>
      have heq : applyOp (.proxy now cost outcome) pool = pool := by
        show (proxyRequest now cost outcome pool).2 = pool
        rw [proxyRequest_eq_unavailable cost outcome hga]
      rw [heq]
      exact hnn
    | some kp =>
      obtain ⟨key, pool1⟩ := kp
      obtain ⟨k0, hs, hmem, hel, hid, hcase⟩ := getAvailable_spec hga
      have hnn1 : ∀ k ∈ pool1, 0 ≤ k.quotaUsed := by
        rcases hcase with ⟨hr, hkey, hp⟩ | ⟨hr, hkey, hp⟩
        · rw [hp]
          intro k hk
          obtain ⟨j0, hj0, hke⟩ := mem_updateById hk
          by_cases hidj : j0.id = k0.id
          · rw [hke, updateIf_eq_of_id hidj]
            unfold resetQuota
            dsimp only
            omega
          · rw [hke, updateIf_eq_of_ne hidj]
            exact hnn j0 hj0
        · rw [hp]
          exact hnn
      cases outcome with
      | transportError =>
        have heq : applyOp (.proxy now cost .transportError) pool =
            incrementAPIKeyUsage now key.id (-cost)
              (incrementAPIKeyUsage now key.id cost pool1) := by
          show (proxyRequest now cost .transportError pool).2 = _
          rw [proxyRequest_transportError cost hga]
        rw [heq]
        intro k hk
        obtain ⟨j2, hj2, hke⟩ := mem_updateById hk
        obtain ⟨j1, hj1, hj2e⟩ := mem_updateById hj2
        by_cases hidj : j1.id = key.id
        · have hj2v : j2 = { j1 with quotaUsed := j1.quotaUsed + cost, lastUsed := some now } := by
            rw [hj2e, updateIf_eq_of_id hidj]
          have hj2id : j2.id = key.id := by
            rw [hj2v]
            exact hidj
          rw [hke, updateIf_eq_of_id hj2id, hj2v]
          dsimp only
          have := hnn1 j1 hj1
          omega
        · have hj2v : j2 = j1 := by
            rw [hj2e, updateIf_eq_of_ne hidj]
          have hj2ne : ¬ j2.id = key.id := by
            rw [hj2v]
            exact hidj
          rw [hke, updateIf_eq_of_ne hj2ne, hj2v]
          exact hnn1 j1 hj1
      | response st =>
        by_cases hst : st = 401 ∨ st = 403
        · have heq : applyOp (.proxy now cost (.response st)) pool =
              updateAPIKeyStatus now key.id false (key.errorCount + 1)
                (incrementAPIKeyUsage now key.id cost pool1) := by
            show (proxyRequest now cost (.response st) pool).2 = _
            rw [proxyRequest_response cost st hga, if_pos hst]
          rw [heq]
          intro k hk
          obtain ⟨j2, hj2, hke⟩ := mem_updateById hk
          obtain ⟨j1, hj1, hj2e⟩ := mem_updateById hj2
          by_cases hidj : j1.id = key.id
          · have hj2v : j2 = { j1 with quotaUsed := j1.quotaUsed + cost, lastUsed := some now } := by
              rw [hj2e, updateIf_eq_of_id hidj]
            have hj2id : j2.id = key.id := by
              rw [hj2v]
              exact hidj
            rw [hke, updateIf_eq_of_id hj2id, hj2v]
            dsimp only
            have := hnn1 j1 hj1
            omega
          · have hj2v : j2 = j1 := by
              rw [hj2e, updateIf_eq_of_ne hidj]
            have hj2ne : ¬ j2.id = key.id := by
              rw [hj2v]
              exact hidj
            rw [hke, updateIf_eq_of_ne hj2ne, hj2v]
            exact hnn1 j1 hj1
        · have heq : applyOp (.proxy now cost (.response st)) pool =
              incrementAPIKeyUsage now key.id cost pool1 := by
            show (proxyRequest now cost (.response st) pool).2 = _
            rw [proxyRequest_response cost st hga, if_neg hst]
          rw [heq]
          intro k hk
          obtain ⟨j1, hj1, hke⟩ := mem_updateById hk
          by_cases hidj : j1.id = key.id
          · rw [hke, updateIf_eq_of_id hidj]
            dsimp only
            have := hnn1 j1 hj1
            omega
          · rw [hke, updateIf_eq_of_ne hidj]
            exact hnn1 j1 hj1

/-- C9 witness: after a cost-1 forwarded request with a 200 reply, the
used credential (B with quota 0 → 1) still has non-negative `quotaUsed`. -/
theorem c9_witness :
    0 ≤ ({ credB with quotaUsed := 1, lastUsed := some tMay } : APIKey).quotaUsed :=
  c9_nonneg_preserved (.proxy tMay 1 (.response 200)) [credB]
    (by show (0:Int) ≤ 1; decide) (by decide)
    { credB with quotaUsed := 1, lastUsed := some tMay } (by decide)

/-- C2 witness: an eligible credential with a past `refreshesAt` is
returned revived by the same `Select` call: quota reset to 0 and
`refreshesAt` advanced to the first moment of the next month. -/
theorem c2_witness :
    ∃ k0, k0 ∈ [credStale] ∧ eligible k0 = true ∧
      selectAPIKey [credStale] = some k0 ∧
      (rolloverDue tJun k0 = true →
        (resetQuota tJun credStale).quotaUsed = 0 ∧
        (resetQuota tJun credStale).refreshesAt = some (firstOfNextMonth tJun)) ∧
      (rolloverDue tJun k0 = false → resetQuota tJun credStale = k0) :=
  c2_rollover_after_selection tJun [credStale] [resetQuota tJun credStale]
    (resetQuota tJun credStale) (by decide)
